import Mathlib

/-!
Shallow embedding of `file_renamer.py`: a one-shot batch utility that renames
the files of a single directory to a sequential pattern, normalizing
extensions and resolving target-name collisions.

Paths are modelled as (parent directory, final name) pairs; the directory
listing is a snapshot list of entries; the filesystem existence state consumed
by the collision resolver is an explicit predicate, and the executor threads
an explicit list of existing paths.  The unbounded `while True` search of the
collision resolver is given explicit fuel and returns `Option`, `none`
standing for a search that would run longer than the fuel allows.
-/

/-- A filesystem path as the program builds them: a parent directory and the
final name component.  Equality is structural, matching `pathlib.Path`
equality on `parent / name`. -/
structure FsPath where
  parent : String
  name : String
deriving DecidableEq

/-- One directory entry of the snapshot returned by `iterdir()`: its name and
whether it is a regular file (`is_file()`). -/
structure DirEntry where
  name : String
  isFile : Bool
deriving DecidableEq

/-- The `RenameOperation` dataclass: source path, target path, a status
string (`pending`, `success`, `failed`, `skipped`) and an optional error. -/
structure RenameOperation where
  source : FsPath
  target : FsPath
  status : String
  error : Option String
deriving DecidableEq

/-- The `RenameResult` dataclass of aggregate statistics. -/
structure RenameResult where
  total_files : Nat
  successful : Nat
  failed : Nat
  skipped : Nat
  errors : List String
deriving DecidableEq

/-- `normalize_extension`: ensure a leading dot, then lowercase the whole
string (`if not ext.startswith('.'): ext = '.' + ext; return ext.lower()`). -/
def normalize_extension (ext : String) : String :=
  let cs := if ext.data.head? = some '.' then ext.data else '.' :: ext.data
  String.mk (cs.map Char.toLower)

/-- The first maximal run of decimal digits of a character list, scanning left
to right; `none` when the list holds no digit.  This is the first match of the
regular expression `\d+` used by `extract_numeric_order`. -/
def firstRun : List Char → Option (List Char)
  | [] => none
  | c :: rest =>
    if c.isDigit then some (c :: rest.takeWhile Char.isDigit) else firstRun rest

/-- Decimal value of a digit string, as `int()` computes it. -/
def digitsVal (ds : List Char) : Nat :=
  ds.foldl (fun a c => a * 10 + (c.toNat - 48)) 0

/-- `extract_numeric_order`: the integer value of the first digit run of the
filename, or `0` when the filename holds no digit. -/
def extract_numeric_order (filename : String) : Nat :=
  match firstRun filename.data with
  | some ds => digitsVal ds
  | none => 0

/-- Index of the last `'.'` of a character list (`str.rfind('.')`), `none`
when there is no dot. -/
def lastDotIdx : List Char → Option Nat
  | [] => none
  | c :: rest =>
    match lastDotIdx rest with
    | some i => some (i + 1)
    | none => if c = '.' then some 0 else none

/-- `pathlib`'s `(stem, suffix)` of a name: split at the last dot when that
dot is neither the first nor the last character, else the suffix is empty. -/
def pyStemSuffix (name : String) : String × String :=
  match lastDotIdx name.data with
  | some i =>
    if 0 < i ∧ i + 1 < name.data.length then
      (String.mk (name.data.take i), String.mk (name.data.drop i))
    else (name, "")
  | none => (name, "")

/-- `Path.suffix` of a name. -/
def pySuffix (name : String) : String := (pyStemSuffix name).2

/-- The k-th suffixed candidate `parent / (stem + "_" + str(k) + suffix)`
tried by `handle_name_conflict`. -/
def conflictCandidate (t : FsPath) (k : Nat) : FsPath :=
  ⟨t.parent, (pyStemSuffix t.name).1 ++ "_" ++ Nat.repr k ++ (pyStemSuffix t.name).2⟩

/-- The `while True` search of `handle_name_conflict`, with explicit fuel:
try counter `k`, `k+1`, ... until a candidate does not exist. -/
def conflictLoop (ex : FsPath → Bool) (t : FsPath) : Nat → Nat → Option FsPath
  | _, 0 => none
  | k, fuel + 1 =>
    if ex (conflictCandidate t k) then conflictLoop ex t (k + 1) fuel
    else some (conflictCandidate t k)

/-- `handle_name_conflict`: return the desired path when it does not exist,
else search `stem_1`, `stem_2`, ... for the first free candidate. -/
def handle_name_conflict (ex : FsPath → Bool) (fuel : Nat) (target_path : FsPath) :
    Option FsPath :=
  if ex target_path then conflictLoop ex target_path 1 fuel else some target_path

/-- `pattern.replace("{n}", rep)`: replace every non-overlapping occurrence of
the literal token, scanning left to right. -/
def replaceN (rep : List Char) : List Char → List Char
  | [] => []
  | [c] => [c]
  | [c1, c2] => [c1, c2]
  | c1 :: c2 :: c3 :: rest =>
    if c1 = '{' ∧ c2 = 'n' ∧ c3 = '}' then rep ++ replaceN rep rest
    else c1 :: replaceN rep (c2 :: c3 :: rest)

/-- Whether the token `{n}` occurs in a character list. -/
def containsN : List Char → Bool
  | [] => false
  | [_] => false
  | [_, _] => false
  | c1 :: c2 :: c3 :: rest =>
    (c1 = '{' && c2 = 'n' && c3 = '}') || containsN (c2 :: c3 :: rest)

/-- Insertion into a list sorted by a numeric key.  The new element lands
before the first element whose key is at least as large; since the sorted tail
holds only elements that followed it in the original list, this keeps the new
element to the left of every equal-keyed element listed after it. -/
def insertByKey (key : String → Nat) (x : String) : List String → List String
  | [] => [x]
  | y :: ys => if key x ≤ key y then x :: y :: ys else y :: insertByKey key x ys

/-- Stable ascending sort by a numeric key.  `list.sort(key=...)` is a stable
ascending sort; any two stable sorts by the same key agree extensionally, so
this insertion sort computes exactly the list Python's sort produces. -/
def sortByKey (key : String → Nat) : List String → List String
  | [] => []
  | x :: xs => insertByKey key x (sortByKey key xs)

/-- The plain files of a directory snapshot, in listing order
(`[item for item in all_items if item.is_file()]`). -/
def filesOf (listing : List DirEntry) : List String :=
  listing.filterMap (fun e => if e.isFile then some e.name else none)

/-- `discover_files`: the plain files of the snapshot, sorted by
`extract_numeric_order` of their names with a stable sort. -/
def discover_files (listing : List DirEntry) : List String :=
  sortByKey extract_numeric_order (filesOf listing)

/-- The candidate new name built for 1-based index `i`:
`pattern.replace("{n}", str(i)) + normalize_extension(file.suffix)`. -/
def candidate_name (pattern : String) (i : Nat) (srcName : String) : String :=
  String.mk (replaceN (Nat.repr i).data pattern.data) ++
    normalize_extension (pySuffix srcName)

/-- The planning loop of `generate_rename_plan`: for each file at 1-based
index `i`, build the candidate target in the same directory, pass it through
the collision resolver, and record a pending operation. -/
def planOps (folder pattern : String) (ex : FsPath → Bool) (fuel : Nat) :
    Nat → List String → Option (List RenameOperation)
  | _, [] => some []
  | i, f :: fs =>
    match handle_name_conflict ex fuel ⟨folder, candidate_name pattern i f⟩ with
    | none => none
    | some target =>
      match planOps folder pattern ex fuel (i + 1) fs with
      | none => none
      | some rest => some (⟨⟨folder, f⟩, target, "pending", none⟩ :: rest)

/-- `generate_rename_plan`: discover and sort the files, then plan with
sequential numbering starting at 1. -/
def generate_rename_plan (folder pattern : String) (ex : FsPath → Bool)
    (fuel : Nat) (listing : List DirEntry) : Option (List RenameOperation) :=
  planOps folder pattern ex fuel 1 (discover_files listing)

/-- The exception classes distinguished by the executor's `except` clauses. -/
inductive PyExc where
  | perm (msg : String)
  | os (msg : String)
  | other (msg : String)
deriving DecidableEq

/-- The error strings the executor formats for the three `except` clauses. -/
def formatErr : PyExc → FsPath → String
  | PyExc.perm m, s => "Permission denied for " ++ s.name ++ ": " ++ m
  | PyExc.os m, s => "Failed to rename " ++ s.name ++ ": " ++ m
  | PyExc.other m, s => "Unexpected error renaming " ++ s.name ++ ": " ++ m

/-- An abstract model of `Path.rename` as the OS provides it: given the
current set of existing paths, either a new set of existing paths, or an
exception. -/
abbrev RenameAtt := List FsPath → FsPath → FsPath → Except PyExc (List FsPath)

/-- Outcome of executing one operation: new filesystem, finalized operation,
and the contribution to the success/failed/skipped tallies and error list. -/
structure StepOut where
  fs : List FsPath
  op : RenameOperation
  succ : Nat
  fail : Nat
  skip : Nat
  errs : List String

/-- Outcome of executing a whole plan. -/
structure ExecOut where
  fs : List FsPath
  ops : List RenameOperation
  succ : Nat
  fail : Nat
  skip : Nat
  errs : List String

/-- One iteration of the executor's loop: missing source is a failure with a
not-found message; identical source and target is a skip with no rename
attempted; otherwise the rename is attempted, success or a formatted failure
message following the OS outcome. -/
def execStep (att : RenameAtt) (fs : List FsPath) (op : RenameOperation) : StepOut :=
  if fs.contains op.source = false then
    ⟨fs,
     { op with status := "failed",
               error := some ("Source file not found: " ++ op.source.name) },
     0, 1, 0, ["Source file not found: " ++ op.source.name]⟩
  else if op.source = op.target then
    ⟨fs, { op with status := "skipped" }, 0, 0, 1, []⟩
  else
    match att fs op.source op.target with
    | Except.ok fs2 => ⟨fs2, { op with status := "success" }, 1, 0, 0, []⟩
    | Except.error e =>
      ⟨fs,
       { op with status := "failed", error := some (formatErr e op.source) },
       0, 1, 0, [formatErr e op.source]⟩

/-- The executor's loop over the whole plan, in list order, threading the
filesystem state and accumulating tallies and error messages. -/
def execList (att : RenameAtt) : List FsPath → List RenameOperation → ExecOut
  | fs, [] => ⟨fs, [], 0, 0, 0, []⟩
  | fs, op :: rest =>
    let s := execStep att fs op
    let r := execList att s.fs rest
    ⟨r.fs, s.op :: r.ops, s.succ + r.succ, s.fail + r.fail, s.skip + r.skip,
     s.errs ++ r.errs⟩

/-- `execute_renames`: run the loop and return the `RenameResult` whose total
is the length of the plan.  (The early return on an empty plan produces the
same `RenameResult(0, 0, 0, 0, [])` this general form yields.) -/
def execute_renames (att : RenameAtt) (fs : List FsPath)
    (ops : List RenameOperation) : RenameResult :=
  let o := execList att fs ops
  ⟨ops.length, o.succ, o.fail, o.skip, o.errs⟩

/-- A rename call that succeeds: the source path stops existing and the target
path exists (an existing target is overwritten, as POSIX rename does). -/
def posixRename : RenameAtt :=
  fun fs s t => Except.ok ((fs.erase s).insert t)

/-- Claim-side predicate (wording of the spec): the string starts with exactly
one dot, i.e. its first character is a dot and its second is not. -/
def startsWithExactlyOneDot (s : String) : Prop :=
  s.data.head? = some '.' ∧ ¬ (s.data.drop 1).head? = some '.'

/-- First end-to-end scenario: a directory holding `1.PNG` and `2.PNG`. -/
def fs1 : List FsPath := [⟨"d", "1.PNG"⟩, ⟨"d", "2.PNG"⟩]

/-- Snapshot of the first scenario's directory. -/
def listing1 : List DirEntry := [⟨"1.PNG", true⟩, ⟨"2.PNG", true⟩]

/-- Existence predicate of the first scenario. -/
def ex1 (p : FsPath) : Bool := fs1.contains p

/-- The plan the first scenario produces. -/
def plan1 : List RenameOperation :=
  [⟨⟨"d", "1.PNG"⟩, ⟨"d", "photo1.png"⟩, "pending", none⟩,
   ⟨⟨"d", "2.PNG"⟩, ⟨"d", "photo2.png"⟩, "pending", none⟩]

/-- Second-run scenario: the directory now holds the first run's outputs. -/
def fs2 : List FsPath := [⟨"d", "photo1.png"⟩, ⟨"d", "photo2.png"⟩]

/-- Snapshot of the second-run directory. -/
def listing2 : List DirEntry := [⟨"photo1.png", true⟩, ⟨"photo2.png", true⟩]

/-- Existence predicate of the second-run scenario. -/
def ex2 (p : FsPath) : Bool := fs2.contains p

/-- The plan the second run actually produces: each desired name exists (it is
the source itself), so the resolver diverts every target to a `_1` suffix. -/
def plan2 : List RenameOperation :=
  [⟨⟨"d", "photo1.png"⟩, ⟨"d", "photo1_1.png"⟩, "pending", none⟩,
   ⟨⟨"d", "photo2.png"⟩, ⟨"d", "photo2_1.png"⟩, "pending", none⟩]

/-- Pattern-without-token scenario: two `.png` files, pattern `photo`. -/
def fs3 : List FsPath := [⟨"d", "a.png"⟩, ⟨"d", "b.png"⟩]

/-- Snapshot of the pattern-without-token scenario. -/
def listing3 : List DirEntry := [⟨"a.png", true⟩, ⟨"b.png", true⟩]

/-- Existence predicate of the pattern-without-token scenario. -/
def ex3 (p : FsPath) : Bool := fs3.contains p

/-- The plan of the pattern-without-token scenario: both operations receive
the same target `photo.png`, which does not exist at planning time. -/
def plan3 : List RenameOperation :=
  [⟨⟨"d", "a.png"⟩, ⟨"d", "photo.png"⟩, "pending", none⟩,
   ⟨⟨"d", "b.png"⟩, ⟨"d", "photo.png"⟩, "pending", none⟩]

/-- Existence predicate for the resolver example where `photo1.png` exists. -/
def ex4a (p : FsPath) : Bool := p == FsPath.mk "d" "photo1.png"

/-- Existence predicate where `photo1.png` and `photo1_1.png` both exist. -/
def ex4b (p : FsPath) : Bool :=
  p == FsPath.mk "d" "photo1.png" || p == FsPath.mk "d" "photo1_1.png"

/-- Snapshot holding files with no dot-separated extension. -/
def listing10 : List DirEntry := [⟨"README", true⟩, ⟨".hidden", true⟩]

/-- Existence predicate of an otherwise-empty filesystem. -/
def exNone (_ : FsPath) : Bool := false

/-- The plan for the extensionless snapshot: every candidate carries the
normalized empty extension, a single bare dot. -/
def plan10 : List RenameOperation :=
  [⟨⟨"d", "README"⟩, ⟨"d", "photo1."⟩, "pending", none⟩,
   ⟨⟨"d", ".hidden"⟩, ⟨"d", "photo2."⟩, "pending", none⟩]

/-- A pending operation whose source is absent from an empty filesystem. -/
def opMissing : RenameOperation := ⟨⟨"d", "x"⟩, ⟨"d", "y"⟩, "pending", none⟩

/-- A pending operation whose source and target coincide. -/
def opSame : RenameOperation := ⟨⟨"d", "z"⟩, ⟨"d", "z"⟩, "pending", none⟩

/-- A rename call that always fails with a permission error. -/
def permDenied : RenameAtt := fun _ _ _ => Except.error (PyExc.perm "no")

theorem char_toNat_ofNat (n : Nat) (h : n.isValidChar) : (Char.ofNat n).toNat = n := by
  rw [Char.ofNat, dif_pos h]
  rfl

theorem char_isUpper_iff (c : Char) : c.isUpper = true ↔ 65 ≤ c.toNat ∧ c.toNat ≤ 90 := by
  simp only [Char.isUpper, Bool.and_eq_true, decide_eq_true_eq]
  constructor
  · rintro ⟨h1, h2⟩
    exact ⟨h1, h2⟩
  · rintro ⟨h1, h2⟩
    exact ⟨h1, h2⟩

theorem char_toLower_isUpper (c : Char) : (Char.toLower c).isUpper = false := by
  unfold Char.toLower
  by_cases h : 65 ≤ c.toNat ∧ c.toNat ≤ 90
  · rw [if_pos ⟨h.1, h.2⟩]
    have hv : (c.toNat + 32).isValidChar := Or.inl (by omega)
    have ht : (Char.ofNat (c.toNat + 32)).toNat = c.toNat + 32 := char_toNat_ofNat _ hv
    rw [Bool.eq_false_iff]
    intro hu
    have := (char_isUpper_iff _).1 hu
    omega
  · rw [if_neg (fun hc => h ⟨hc.1, hc.2⟩)]
    rw [Bool.eq_false_iff]
    intro hu
    exact h ((char_isUpper_iff _).1 hu)

theorem char_toLower_ne_dot (c : Char) (h : c ≠ '.') : Char.toLower c ≠ '.' := by
  unfold Char.toLower
  by_cases hc : 65 ≤ c.toNat ∧ c.toNat ≤ 90
  · rw [if_pos ⟨hc.1, hc.2⟩]
    intro he
    have hv : (c.toNat + 32).isValidChar := Or.inl (by omega)
    have ht : (Char.ofNat (c.toNat + 32)).toNat = c.toNat + 32 := char_toNat_ofNat _ hv
    rw [he] at ht
    have hd : ('.' : Char).toNat = 46 := by decide
    omega
  · rw [if_neg (fun hx => hc ⟨hx.1, hx.2⟩)]
    exact h

theorem normalize_extension_data (ext : String) :
    (normalize_extension ext).data =
      (if ext.data.head? = some '.' then ext.data else '.' :: ext.data).map Char.toLower :=
  rfl

theorem normalize_extension_head (ext : String) :
    (normalize_extension ext).data.head? = some '.' := by
  have hdot : Char.toLower '.' = '.' := by decide
  rw [normalize_extension_data]
  by_cases h : ext.data.head? = some '.'
  · rw [if_pos h]
    cases hd : ext.data with
    | nil => rw [hd] at h; simp at h
    | cons c rest =>
      rw [hd] at h
      simp at h
      subst h
      simp [hdot]
  · rw [if_neg h]
    simp [hdot]

theorem normalize_extension_oneDot (ext : String)
    (h : ¬ ext.data.take 2 = ['.', '.']) :
    startsWithExactlyOneDot (normalize_extension ext) := by
  have hdot : Char.toLower '.' = '.' := by decide
  refine ⟨normalize_extension_head ext, ?_⟩
  rw [normalize_extension_data]
  cases hd : ext.data with
  | nil => simp
  | cons c rest =>
    by_cases hc : c = '.'
    · subst hc
      rw [if_pos (by simp)]
      cases rest with
      | nil => simp
      | cons c2 rest2 =>
        have hc2 : c2 ≠ '.' := by
          intro he
          subst he
          rw [hd] at h
          simp at h
        simp only [List.map_cons, List.drop_succ_cons, List.drop_zero, List.head?_cons]
        intro he
        simp at he
        exact char_toLower_ne_dot c2 hc2 he
    · rw [if_neg (by simp [hc])]
      simp only [List.map_cons, List.drop_succ_cons, List.drop_zero, List.head?_cons]
      intro he
      simp at he
      exact char_toLower_ne_dot c hc he

theorem normalize_extension_noUpper (ext : String) :
    ∀ c ∈ (normalize_extension ext).data, c.isUpper = false := by
  intro c hc
  rw [normalize_extension_data] at hc
  rcases List.mem_map.1 hc with ⟨c0, _, rfl⟩
  exact char_toLower_isUpper c0

/-- Claim C5 counterexample: on the input `"..png"` (which already starts with
a dot) the normalizer returns `"..png"` unchanged apart from lowercasing, so
the output starts with two dots, not exactly one. -/
theorem c5_counterexample : ¬ startsWithExactlyOneDot (normalize_extension "..png") := by
  unfold startsWithExactlyOneDot
  decide

/-- Claim C5 (amended): for every input string the normalizer's output starts
with at least one dot, and with exactly one dot whenever the input does not
already begin with two dots; the output contains no uppercase letters;
`normalize("PNG") = normalize(".png") = ".png"`, and the empty string yields
`"."`. -/
theorem normalize_extension_spec :
    (∀ ext : String, (normalize_extension ext).data.head? = some '.') ∧
    (∀ ext : String, ¬ ext.data.take 2 = ['.', '.'] →
       startsWithExactlyOneDot (normalize_extension ext)) ∧
    (∀ ext : String, ∀ c ∈ (normalize_extension ext).data, c.isUpper = false) ∧
    normalize_extension "PNG" = ".png" ∧
    normalize_extension ".png" = ".png" ∧
    normalize_extension "" = "." :=
  ⟨normalize_extension_head, normalize_extension_oneDot, normalize_extension_noUpper,
   by decide, by decide, by decide⟩

/-- Claim C5 witness: the amended statement evaluated at the inputs `"PNG"`
and `".JpG"`. -/
theorem normalize_extension_spec_witness :
    startsWithExactlyOneDot (normalize_extension "PNG") ∧
    (∀ c ∈ (normalize_extension ".JpG").data, c.isUpper = false) :=
  ⟨normalize_extension_spec.2.1 "PNG" (by decide),
   normalize_extension_spec.2.2.1 ".JpG"⟩

theorem takeWhile_append_of_all {p : Char → Bool} (l post : List Char)
    (h : ∀ c ∈ l, p c = true) : (l ++ post).takeWhile p = l ++ post.takeWhile p := by
  induction l with
  | nil => simp
  | cons c rest ih =>
    have h1 : p c = true := h c (by simp)
    simp [List.takeWhile_cons, h1, ih (fun x hx => h x (by simp [hx]))]

theorem takeWhile_eq_nil_of_head {p : Char → Bool} (post : List Char)
    (h : ∀ c, post.head? = some c → p c = false) : post.takeWhile p = [] := by
  cases post with
  | nil => rfl
  | cons c rest => simp [List.takeWhile_cons, h c rfl]

theorem firstRun_skip (pre : List Char) (h : ∀ c ∈ pre, c.isDigit = false)
    (rest : List Char) : firstRun (pre ++ rest) = firstRun rest := by
  induction pre with
  | nil => rfl
  | cons c cs ih =>
    simp only [List.cons_append, firstRun, h c (by simp)]
    exact ih (fun x hx => h x (by simp [hx]))

theorem firstRun_at_digits (d : Char) (ds post : List Char)
    (hd : d.isDigit = true) (hds : ∀ c ∈ ds, c.isDigit = true)
    (hpost : ∀ c, post.head? = some c → c.isDigit = false) :
    firstRun ((d :: ds) ++ post) = some (d :: ds) := by
  have h1 : List.takeWhile Char.isDigit (ds ++ post) =
      ds ++ List.takeWhile Char.isDigit post := takeWhile_append_of_all ds post hds
  have h2 : List.takeWhile Char.isDigit post = [] := takeWhile_eq_nil_of_head post hpost
  simp [firstRun, hd, h1, h2]

theorem firstRun_none (l : List Char) (h : ∀ c ∈ l, c.isDigit = false) :
    firstRun l = none := by
  induction l with
  | nil => rfl
  | cons c cs ih =>
    simp only [firstRun, h c (by simp)]
    exact ih (fun x hx => h x (by simp [hx]))

/-- Claim C7: the sequence key extractor returns the value of the first
(leftmost) maximal run of decimal digits, and `0` when the filename holds no
digit; `key("photo5.jpg") = 5`, `key("10.PNG") = 10`,
`key("noNumber.txt") = 0`. -/
theorem extract_numeric_order_spec :
    (∀ (s : String) (pre ds post : List Char),
       s.data = pre ++ ds ++ post →
       (∀ c ∈ pre, c.isDigit = false) →
       ds ≠ [] →
       (∀ c ∈ ds, c.isDigit = true) →
       (∀ c, post.head? = some c → c.isDigit = false) →
       extract_numeric_order s = digitsVal ds) ∧
    (∀ s : String, (∀ c ∈ s.data, c.isDigit = false) → extract_numeric_order s = 0) ∧
    extract_numeric_order "photo5.jpg" = 5 ∧
    extract_numeric_order "10.PNG" = 10 ∧
    extract_numeric_order "noNumber.txt" = 0 := by
  refine ⟨?_, ?_, by decide, by decide, by decide⟩
  · intro s pre ds post hs hpre hne hds hpost
    unfold extract_numeric_order
    rw [hs]
    cases ds with
    | nil => exact absurd rfl hne
    | cons d ds2 =>
      rw [List.append_assoc, firstRun_skip pre hpre,
        firstRun_at_digits d ds2 post (hds d (by simp))
          (fun c hc => hds c (by simp [hc])) hpost]
  · intro s h
    unfold extract_numeric_order
    rw [firstRun_none s.data h]

/-- Claim C7 witness: the characterization evaluated at `"xy42z"` (first run
`42`) and at the digitless `"abc"`. -/
theorem extract_numeric_order_spec_witness :
    extract_numeric_order "xy42z" = digitsVal ['4', '2'] ∧
    extract_numeric_order "abc" = 0 :=
  ⟨extract_numeric_order_spec.1 "xy42z" ['x', 'y'] ['4', '2'] ['z'] rfl
     (by decide) (by decide) (by decide) (by decide),
   extract_numeric_order_spec.2.1 "abc" (by decide)⟩

/-- Claim C10: a source whose name yields an empty suffix (no dot-separated
extension, or a dotfile) gets the pattern-substituted name followed by a
single trailing bare dot, because normalizing the empty extension yields `.`
and it is always appended; concretely, `README` and `.hidden` plan to
`photo1.` and `photo2.`. -/
theorem empty_suffix_candidate_spec :
    (∀ (pattern : String) (i : Nat) (srcName : String),
       pySuffix srcName = "" →
       candidate_name pattern i srcName =
         String.mk (replaceN (Nat.repr i).data pattern.data) ++ ".") ∧
    pySuffix "README" = "" ∧
    pySuffix ".hidden" = "" ∧
    normalize_extension "" = "." ∧
    generate_rename_plan "d" "photo{n}" exNone 1 listing10 = some plan10 := by
  refine ⟨?_, by decide, by decide, by decide, by decide⟩
  intro pattern i srcName h
  unfold candidate_name
  rw [h]
  rfl

/-- Claim C10 witness: the empty-suffix rule evaluated at `README` with
pattern `photo{n}` and index 1. -/
theorem empty_suffix_candidate_spec_witness :
    candidate_name "photo{n}" 1 "README" =
      String.mk (replaceN (Nat.repr 1).data "photo{n}".data) ++ "." :=
  empty_suffix_candidate_spec.1 "photo{n}" 1 "README" (by decide)

theorem conflictLoop_spec (ex : FsPath → Bool) (t : FsPath) :
    ∀ (fuel c : Nat), (∃ m, m < fuel ∧ ex (conflictCandidate t (c + m)) = false) →
      ∃ j, conflictLoop ex t c fuel = some (conflictCandidate t j) ∧ c ≤ j ∧
        ex (conflictCandidate t j) = false ∧
        ∀ i, c ≤ i → i < j → ex (conflictCandidate t i) = true := by
  intro fuel
  induction fuel with
  | zero =>
    intro c h
    obtain ⟨m, hm, _⟩ := h
    omega
  | succ n ih =>
    intro c h
    by_cases hc : ex (conflictCandidate t c) = true
    · have h' : ∃ m, m < n ∧ ex (conflictCandidate t (c + 1 + m)) = false := by
        obtain ⟨m, hm, hf⟩ := h
        cases m with
        | zero => rw [Nat.add_zero] at hf; rw [hf] at hc; exact absurd hc (by simp)
        | succ m2 =>
          refine ⟨m2, by omega, ?_⟩
          have harith : c + 1 + m2 = c + (m2 + 1) := by omega
          rw [harith]
          exact hf
      obtain ⟨j, hj1, hj2, hj3, hj4⟩ := ih (c + 1) h'
      refine ⟨j, ?_, by omega, hj3, ?_⟩
      · simp only [conflictLoop, hc, if_pos]
        exact hj1
      · intro i hi1 hi2
        rcases Nat.eq_or_lt_of_le hi1 with heq | hlt
        · rw [← heq]
          exact hc
        · exact hj4 i hlt hi2
    · have hcf : ex (conflictCandidate t c) = false := by
        cases hx : ex (conflictCandidate t c)
        · rfl
        · exact absurd hx hc
      refine ⟨c, ?_, Nat.le_refl c, hcf, fun i h1 h2 => absurd (Nat.lt_of_le_of_lt h1 h2) (Nat.lt_irrefl c)⟩
      simp [conflictLoop, hcf]

/-- Claim C4: whenever some suffixed candidate with index between 1 and the
fuel is free, the resolver returns the desired path unchanged when it does not
exist; otherwise it returns the candidate `parent/stem_j.ext` for the smallest
`j ≥ 1` whose candidate is free, and the returned path never exists.
Concretely, resolving `photo1.png` when it exists yields `photo1_1.png`, and
`photo1_2.png` when `photo1_1.png` exists as well. -/
theorem handle_name_conflict_spec :
    (∀ (ex : FsPath → Bool) (t : FsPath) (fuel k : Nat),
       1 ≤ k → k ≤ fuel → ex (conflictCandidate t k) = false →
       (ex t = false → handle_name_conflict ex fuel t = some t) ∧
       (ex t = true → ∃ j, 1 ≤ j ∧
         handle_name_conflict ex fuel t = some (conflictCandidate t j) ∧
         ex (conflictCandidate t j) = false ∧
         ∀ i, 1 ≤ i → i < j → ex (conflictCandidate t i) = true)) ∧
    handle_name_conflict ex4a 5 ⟨"d", "photo1.png"⟩ = some ⟨"d", "photo1_1.png"⟩ ∧
    handle_name_conflict ex4b 5 ⟨"d", "photo1.png"⟩ = some ⟨"d", "photo1_2.png"⟩ := by
  refine ⟨?_, by decide, by decide⟩
  intro ex t fuel k hk1 hkf hkfree
  constructor
  · intro hex
    simp [handle_name_conflict, hex]
  · intro hex
    have hstart : ∃ m, m < fuel ∧ ex (conflictCandidate t (1 + m)) = false := by
      refine ⟨k - 1, by omega, ?_⟩
      have harith : 1 + (k - 1) = k := by omega
      rw [harith]
      exact hkfree
    obtain ⟨j, hj1, hj2, hj3, hj4⟩ := conflictLoop_spec ex t fuel 1 hstart
    refine ⟨j, hj2, ?_, hj3, fun i hi1 hi2 => hj4 i hi1 hi2⟩
    simp only [handle_name_conflict, hex, if_pos]
    exact hj1

/-- Claim C4 witness: the resolver leaves a path alone under an existence
predicate that holds nowhere. -/
theorem handle_name_conflict_spec_witness :
    handle_name_conflict exNone 1 ⟨"d", "a.png"⟩ = some ⟨"d", "a.png"⟩ :=
  (handle_name_conflict_spec.1 exNone ⟨"d", "a.png"⟩ 1 1 (by decide) (by decide) rfl).1 rfl

theorem planOps_sound (folder pattern : String) (ex : FsPath → Bool) (fuel : Nat) :
    ∀ (files : List String) (start : Nat) (ops : List RenameOperation),
      planOps folder pattern ex fuel start files = some ops →
      ops.length = files.length ∧
      ∀ (i : Nat) (h : i < ops.length) (h' : i < files.length),
        (ops.get ⟨i, h⟩).source = ⟨folder, files.get ⟨i, h'⟩⟩ ∧
        (ops.get ⟨i, h⟩).status = "pending" ∧
        (ops.get ⟨i, h⟩).error = none ∧
        handle_name_conflict ex fuel
            ⟨folder, candidate_name pattern (start + i) (files.get ⟨i, h'⟩)⟩
          = some ((ops.get ⟨i, h⟩).target) := by
  intro files
  induction files with
  | nil =>
    intro start ops h
    simp only [planOps, Option.some.injEq] at h
    subst h
    exact ⟨rfl, fun i hi _ => absurd hi (by simp)⟩
  | cons f fs ih =>
    intro start ops h
    rw [planOps] at h
    cases h1 : handle_name_conflict ex fuel ⟨folder, candidate_name pattern start f⟩ with
    | none => rw [h1] at h; exact absurd h (by simp)
    | some target =>
      rw [h1] at h
      cases h2 : planOps folder pattern ex fuel (start + 1) fs with
      | none => rw [h2] at h; exact absurd h (by simp)
      | some rest =>
        rw [h2] at h
        simp only [Option.some.injEq] at h
        subst h
        obtain ⟨hlen, hrest⟩ := ih (start + 1) rest h2
        refine ⟨by simp [hlen], ?_⟩
        intro i hi hi'
        cases i with
        | zero =>
          refine ⟨rfl, rfl, rfl, ?_⟩
          rw [Nat.add_zero]
          exact h1
        | succ n =>
          have hn : n < rest.length := by
            simp only [List.length_cons] at hi
            omega
          have hn' : n < fs.length := by
            simp only [List.length_cons] at hi'
            omega
          have hmain := hrest n hn hn'
          have harith : start + 1 + n = start + (n + 1) := by omega
          rw [harith] at hmain
          exact hmain

/-- Claim C1: the plan assigns the file at 0-based index `i` (1-based position
`i+1`) the source `folder/file`, status `pending`, no error, and a target that
is the collision-resolved form of the candidate built by substituting `{n}`
with the decimal of `i+1` and appending the normalized extension, inside the
same directory; concretely, `1.PNG`/`2.PNG` with pattern `photo{n}` plan to
`photo1.png`/`photo2.png` and execute to
`{total: 2, successful: 2, failed: 0, skipped: 0, errors: []}`. -/
theorem generate_rename_plan_spec :
    (∀ (folder pattern : String) (ex : FsPath → Bool) (fuel : Nat)
       (listing : List DirEntry) (ops : List RenameOperation),
       generate_rename_plan folder pattern ex fuel listing = some ops →
       ops.length = (discover_files listing).length ∧
       ∀ (i : Nat) (h : i < ops.length) (h' : i < (discover_files listing).length),
         (ops.get ⟨i, h⟩).source = ⟨folder, (discover_files listing).get ⟨i, h'⟩⟩ ∧
         (ops.get ⟨i, h⟩).status = "pending" ∧
         (ops.get ⟨i, h⟩).error = none ∧
         handle_name_conflict ex fuel
             ⟨folder, candidate_name pattern (i + 1) ((discover_files listing).get ⟨i, h'⟩)⟩
           = some ((ops.get ⟨i, h⟩).target)) ∧
    generate_rename_plan "d" "photo{n}" ex1 1 listing1 = some plan1 ∧
    execute_renames posixRename fs1 plan1 = ⟨2, 2, 0, 0, []⟩ := by
  refine ⟨?_, by decide, by decide⟩
  intro folder pattern ex fuel listing ops h
  obtain ⟨hlen, hall⟩ := planOps_sound folder pattern ex fuel (discover_files listing) 1 ops h
  refine ⟨hlen, ?_⟩
  intro i hi hi'
  have hmain := hall i hi hi'
  have harith : 1 + i = i + 1 := by omega
  rw [harith] at hmain
  exact hmain

/-- Claim C1 witness: the characterization evaluated on the `1.PNG`/`2.PNG`
snapshot. -/
theorem generate_rename_plan_spec_witness :
    plan1.length = (discover_files listing1).length ∧
    (plan1.get ⟨0, by decide⟩).status = "pending" := by
  have h := generate_rename_plan_spec.1 "d" "photo{n}" ex1 1 listing1 plan1 (by decide)
  exact ⟨h.1, (h.2 0 (by decide) (by decide)).2.1⟩

/-- Claim C2 counterexample: on the already-renamed directory
`photo1.png`/`photo2.png` with the same pattern, each desired name exists (it
is the source itself), so the resolver diverts every target to a `_1` suffix:
the first operation's source differs from its target, and execution skips
nothing. -/
theorem c2_counterexample :
    generate_rename_plan "d" "photo{n}" ex2 5 listing2 = some plan2 ∧
    (plan2.get ⟨0, by decide⟩).source ≠ (plan2.get ⟨0, by decide⟩).target ∧
    (execute_renames posixRename fs2 plan2).skipped = 0 ∧
    (execute_renames posixRename fs2 plan2).total_files = 2 := by
  refine ⟨by decide, by decide, by decide, by decide⟩

/-- Claim C2 (amended): a second run of the pipeline on the directory that
holds exactly the first run's outputs produces a plan in which every target is
the source's stem with `_1` appended before the extension — the desired name
exists, being the source itself, so the collision resolver diverts it — and
executing that plan renames every file again: `successful = total_files` and
`skipped = 0`. -/
theorem second_run_renames_again :
    generate_rename_plan "d" "photo{n}" ex2 5 listing2 = some plan2 ∧
    execute_renames posixRename fs2 plan2 = ⟨2, 2, 0, 0, []⟩ := by
  refine ⟨by decide, by decide⟩

/-- Claim C3 counterexample: with pattern `photo` (no `{n}`) over `a.png` and
`b.png`, neither candidate `photo.png` exists at planning time, so the
resolver leaves both unchanged and the two planned targets coincide — they are
not pairwise distinct. -/
theorem c3_counterexample :
    generate_rename_plan "d" "photo" ex3 5 listing3 = some plan3 ∧
    ¬ List.Pairwise (fun a b => a ≠ b) (plan3.map (fun op => op.target)) := by
  refine ⟨by decide, ?_⟩
  intro h
  simp only [plan3, List.map_cons, List.map_nil, List.pairwise_cons] at h
  exact h.1 ⟨"d", "photo.png"⟩ (by simp) rfl

theorem replaceN_of_not_containsN :
    ∀ (l : List Char), containsN l = false → ∀ rep, replaceN rep l = l := by
  intro l
  induction l using containsN.induct with
  | case1 => intro _ rep; rfl
  | case2 c => intro _ rep; rfl
  | case3 c1 c2 => intro _ rep; rfl
  | case4 c1 c2 c3 rest ih =>
    intro h rep
    rw [containsN] at h
    simp only [Bool.or_eq_false_iff, Bool.and_eq_false_iff] at h
    obtain ⟨h1, h2⟩ := h
    have hne : ¬ (c1 = '{' ∧ c2 = 'n' ∧ c3 = '}') := by
      intro he
      obtain ⟨e1, e2, e3⟩ := he
      subst e1; subst e2; subst e3
      simp at h1
    rw [replaceN, if_neg hne, ih h2 rep]

/-- Claim C3 (amended): when the pattern holds no `{n}`, substitution leaves
it unchanged, so every index yields the same pre-extension candidate name (and
files with equal normalized extensions get identical full candidates); but the
collision resolver checks only planning-time filesystem existence, so
candidates that do not yet exist are returned unchanged and the planned
targets of same-extension files coincide instead of being pairwise distinct. -/
theorem pattern_without_token_spec :
    (∀ (pattern : String), containsN pattern.data = false →
       ∀ (rep : List Char), replaceN rep pattern.data = pattern.data) ∧
    (∀ (pattern : String), containsN pattern.data = false →
       ∀ (i j : Nat) (src src' : String), pySuffix src = pySuffix src' →
         candidate_name pattern i src = candidate_name pattern j src') ∧
    generate_rename_plan "d" "photo" ex3 5 listing3 = some plan3 ∧
    (plan3.get ⟨0, by decide⟩).target = (plan3.get ⟨1, by decide⟩).target := by
  refine ⟨fun p hp => replaceN_of_not_containsN p.data hp, ?_, by decide, by decide⟩
  intro pattern hp i j src src' hsuffix
  unfold candidate_name
  rw [replaceN_of_not_containsN pattern.data hp, replaceN_of_not_containsN pattern.data hp,
    hsuffix]

/-- Claim C3 witness: with the token-free pattern `photo`, indices 1 and 2
over two `.png` files yield one and the same candidate name. -/
theorem pattern_without_token_spec_witness :
    candidate_name "photo" 1 "a.png" = candidate_name "photo" 2 "b.png" :=
  pattern_without_token_spec.2.1 "photo" (by decide) 1 2 "a.png" "b.png" (by decide)

theorem mem_insertByKey (key : String → Nat) (x : String) :
    ∀ (l : List String) (a : String), a ∈ insertByKey key x l → a = x ∨ a ∈ l := by
  intro l
  induction l with
  | nil =>
    intro a ha
    simp only [insertByKey, List.mem_singleton] at ha
    exact Or.inl ha
  | cons y ys ih =>
    intro a ha
    rw [insertByKey] at ha
    by_cases h : key x ≤ key y
    · rw [if_pos h] at ha
      rcases List.mem_cons.1 ha with h1 | h1
      · exact Or.inl h1
      · exact Or.inr h1
    · rw [if_neg h] at ha
      rcases List.mem_cons.1 ha with h1 | h1
      · exact Or.inr (List.mem_cons.2 (Or.inl h1))
      · rcases ih a h1 with h2 | h2
        · exact Or.inl h2
        · exact Or.inr (List.mem_cons.2 (Or.inr h2))

theorem pairwise_insertByKey (key : String → Nat) (x : String) :
    ∀ (l : List String), List.Pairwise (fun a b => key a ≤ key b) l →
      List.Pairwise (fun a b => key a ≤ key b) (insertByKey key x l) := by
  intro l
  induction l with
  | nil => intro _; simp [insertByKey]
  | cons y ys ih =>
    intro hp
    rw [List.pairwise_cons] at hp
    obtain ⟨hy, hys⟩ := hp
    rw [insertByKey]
    by_cases h : key x ≤ key y
    · rw [if_pos h]
      rw [List.pairwise_cons]
      refine ⟨?_, List.pairwise_cons.2 ⟨hy, hys⟩⟩
      intro b hb
      rcases List.mem_cons.1 hb with h1 | h1
      · rw [h1]; exact h
      · exact Nat.le_trans h (hy b h1)
    · rw [if_neg h]
      rw [List.pairwise_cons]
      constructor
      · intro b hb
        rcases mem_insertByKey key x (ys) b hb with h1 | h1
        · rw [h1]; omega
        · exact hy b h1
      · exact ih hys

theorem sortByKey_pairwise (key : String → Nat) (l : List String) :
    List.Pairwise (fun a b => key a ≤ key b) (sortByKey key l) := by
  induction l with
  | nil => simp [sortByKey]
  | cons x xs ih => exact pairwise_insertByKey key x (sortByKey key xs) ih


theorem filter_insertByKey (key : String → Nat) (k : Nat) (x : String) :
    ∀ (l : List String),
      (insertByKey key x l).filter (fun y => key y == k) =
        if key x == k then x :: l.filter (fun y => key y == k)
        else l.filter (fun y => key y == k) := by
  intro l
  induction l with
  | nil =>
    cases hx : (key x == k)
    · simp [insertByKey, List.filter, hx]
    · simp [insertByKey, List.filter, hx]
  | cons y ys ih =>
    rw [insertByKey]
    by_cases h : key x ≤ key y
    · rw [if_pos h]
      cases hx : (key x == k)
      · simp [List.filter_cons, hx]
      · simp [List.filter_cons, hx]
    · rw [if_neg h]
      have hyx : key y < key x := Nat.lt_of_not_le h
      cases hx : (key x == k)
      · simp [List.filter_cons, ih, hx]
      · have hxk : key x = k := by simpa using hx
        have hyk : (key y == k) = false := by
          simp only [beq_eq_false_iff_ne, ne_eq]
          omega
        simp [List.filter_cons, hyk, ih, hx]

theorem filter_sortByKey (key : String → Nat) (k : Nat) (l : List String) :
    (sortByKey key l).filter (fun y => key y == k) =
      l.filter (fun y => key y == k) := by
  induction l with
  | nil => rfl
  | cons x xs ih =>
    rw [sortByKey, filter_insertByKey key k x (sortByKey key xs)]
    cases hx : (key x == k)
    · simp [List.filter_cons, ih, hx]
    · simp [List.filter_cons, ih, hx]

/-- Claim C6: discovery sorts the files in non-decreasing order of their
sequence keys with a stable sort: the sorted list's keys are pairwise
non-decreasing, files with any fixed key keep their original listing-order
relative positions (made precise by a filter equation), sorting
`["2.png", "10.png", "1.png"]` yields `["1.png", "2.png", "10.png"]`, and two
digitless files (both keyed 0) keep their original relative order. -/
theorem discover_files_spec :
    (∀ listing : List DirEntry,
       List.Pairwise (fun a b => extract_numeric_order a ≤ extract_numeric_order b)
         (discover_files listing)) ∧
    (∀ (listing : List DirEntry) (k : Nat),
       (discover_files listing).filter (fun n => extract_numeric_order n == k) =
         (filesOf listing).filter (fun n => extract_numeric_order n == k)) ∧
    discover_files [⟨"2.png", true⟩, ⟨"10.png", true⟩, ⟨"1.png", true⟩] =
      ["1.png", "2.png", "10.png"] ∧
    discover_files [⟨"alpha.txt", true⟩, ⟨"beta.txt", true⟩] =
      ["alpha.txt", "beta.txt"] :=
  ⟨fun listing => sortByKey_pairwise extract_numeric_order (filesOf listing),
   fun listing k => filter_sortByKey extract_numeric_order k (filesOf listing),
   by decide, by decide⟩

theorem execStep_notFound (att : RenameAtt) (fs : List FsPath) (op : RenameOperation)
    (h : fs.contains op.source = false) :
    execStep att fs op =
      ⟨fs,
       { op with status := "failed",
                 error := some ("Source file not found: " ++ op.source.name) },
       0, 1, 0, ["Source file not found: " ++ op.source.name]⟩ := by
  unfold execStep
  rw [if_pos h]

theorem execStep_skip (att : RenameAtt) (fs : List FsPath) (op : RenameOperation)
    (h1 : fs.contains op.source = true) (h2 : op.source = op.target) :
    execStep att fs op = ⟨fs, { op with status := "skipped" }, 0, 0, 1, []⟩ := by
  unfold execStep
  rw [if_neg (by rw [h1]; simp), if_pos h2]

theorem execStep_err (att : RenameAtt) (fs : List FsPath) (op : RenameOperation)
    (e : PyExc) (h1 : fs.contains op.source = true) (h2 : op.source ≠ op.target)
    (h3 : att fs op.source op.target = Except.error e) :
    execStep att fs op =
      ⟨fs, { op with status := "failed", error := some (formatErr e op.source) },
       0, 1, 0, [formatErr e op.source]⟩ := by
  unfold execStep
  rw [if_neg (by rw [h1]; simp), if_neg h2, h3]

theorem execStep_cases (att : RenameAtt) (fs : List FsPath) (op : RenameOperation) :
    (∃ msg, execStep att fs op =
       ⟨fs, { op with status := "failed", error := some msg }, 0, 1, 0, [msg]⟩) ∨
    execStep att fs op = ⟨fs, { op with status := "skipped" }, 0, 0, 1, []⟩ ∨
    (∃ fs2, execStep att fs op = ⟨fs2, { op with status := "success" }, 1, 0, 0, []⟩) := by
  by_cases h1 : fs.contains op.source = false
  · exact Or.inl ⟨_, execStep_notFound att fs op h1⟩
  · have h1' : fs.contains op.source = true := by
      cases hb : fs.contains op.source
      · exact absurd hb h1
      · rfl
    by_cases h2 : op.source = op.target
    · exact Or.inr (Or.inl (execStep_skip att fs op h1' h2))
    · cases h3 : att fs op.source op.target with
      | ok fs2 =>
        refine Or.inr (Or.inr ⟨fs2, ?_⟩)
        unfold execStep
        rw [if_neg (by rw [h1']; simp), if_neg h2, h3]
      | error e => exact Or.inl ⟨_, execStep_err att fs op e h1' h2 h3⟩

theorem execList_nil (att : RenameAtt) (fs : List FsPath) :
    execList att fs [] = ⟨fs, [], 0, 0, 0, []⟩ := rfl

theorem execList_cons (att : RenameAtt) (fs : List FsPath) (op : RenameOperation)
    (rest : List RenameOperation) :
    execList att fs (op :: rest) =
      ⟨(execList att (execStep att fs op).fs rest).fs,
       (execStep att fs op).op :: (execList att (execStep att fs op).fs rest).ops,
       (execStep att fs op).succ + (execList att (execStep att fs op).fs rest).succ,
       (execStep att fs op).fail + (execList att (execStep att fs op).fs rest).fail,
       (execStep att fs op).skip + (execList att (execStep att fs op).fs rest).skip,
       (execStep att fs op).errs ++ (execList att (execStep att fs op).fs rest).errs⟩ := rfl

theorem execList_length (att : RenameAtt) :
    ∀ (ops : List RenameOperation) (fs : List FsPath),
      (execList att fs ops).ops.length = ops.length := by
  intro ops
  induction ops with
  | nil => intro fs; rfl
  | cons op rest ih =>
    intro fs
    rw [execList_cons]
    simp [ih]

theorem execList_append_fs (att : RenameAtt) :
    ∀ (pre : List RenameOperation) (fs : List FsPath) (post : List RenameOperation),
      (execList att fs (pre ++ post)).fs =
        (execList att (execList att fs pre).fs post).fs := by
  intro pre
  induction pre with
  | nil => intro fs post; rfl
  | cons op pre2 ih =>
    intro fs post
    rw [List.cons_append, execList_cons, execList_cons att fs op pre2]
    exact ih (execStep att fs op).fs post

theorem execList_append_ops (att : RenameAtt) :
    ∀ (pre : List RenameOperation) (fs : List FsPath) (post : List RenameOperation),
      (execList att fs (pre ++ post)).ops =
        (execList att fs pre).ops ++ (execList att (execList att fs pre).fs post).ops := by
  intro pre
  induction pre with
  | nil => intro fs post; rfl
  | cons op pre2 ih =>
    intro fs post
    rw [List.cons_append, execList_cons, execList_cons att fs op pre2]
    simp only [List.cons_append]
    rw [ih (execStep att fs op).fs post]

theorem execList_final (att : RenameAtt) :
    ∀ (ops : List RenameOperation) (fs : List FsPath) (op' : RenameOperation),
      op' ∈ (execList att fs ops).ops →
      op'.status = "success" ∨ op'.status = "failed" ∨ op'.status = "skipped" := by
  intro ops
  induction ops with
  | nil => intro fs op' h; exact absurd h (by simp [execList_nil])
  | cons op rest ih =>
    intro fs op' h
    rw [execList_cons] at h
    rcases List.mem_cons.1 h with h1 | h1
    · subst h1
      rcases execStep_cases att fs op with ⟨msg, he⟩ | he | ⟨fs2, he⟩
      · rw [he]; exact Or.inr (Or.inl rfl)
      · rw [he]; exact Or.inr (Or.inr rfl)
      · rw [he]; exact Or.inl rfl
    · exact ih (execStep att fs op).fs op' h1

/-- Claim C8: the executor finalizes every operation in list order — the
output has one finalized entry per input operation (so no failure aborts the
remaining plan, made precise by the length and append-decomposition
equations), every final status is `success`, `failed` or `skipped`, and one
step classifies exactly as the code does: a missing source fails with the
not-found message and no filesystem change, an operation whose source equals
its target is skipped with no rename attempted, and a rename call that raises
marks the operation failed with the formatted human-readable message. -/
theorem execute_renames_classification :
    (∀ (att : RenameAtt) (fs : List FsPath) (ops : List RenameOperation),
       (execList att fs ops).ops.length = ops.length) ∧
    (∀ (att : RenameAtt) (fs : List FsPath) (pre post : List RenameOperation),
       (execList att fs (pre ++ post)).ops =
         (execList att fs pre).ops ++
           (execList att (execList att fs pre).fs post).ops) ∧
    (∀ (att : RenameAtt) (fs : List FsPath) (ops : List RenameOperation)
       (op' : RenameOperation), op' ∈ (execList att fs ops).ops →
       op'.status = "success" ∨ op'.status = "failed" ∨ op'.status = "skipped") ∧
    (∀ (att : RenameAtt) (fs : List FsPath) (op : RenameOperation),
       fs.contains op.source = false →
       execStep att fs op =
         ⟨fs,
          { op with status := "failed",
                    error := some ("Source file not found: " ++ op.source.name) },
          0, 1, 0, ["Source file not found: " ++ op.source.name]⟩) ∧
    (∀ (att : RenameAtt) (fs : List FsPath) (op : RenameOperation),
       fs.contains op.source = true → op.source = op.target →
       execStep att fs op = ⟨fs, { op with status := "skipped" }, 0, 0, 1, []⟩) ∧
    (∀ (att : RenameAtt) (fs : List FsPath) (op : RenameOperation) (e : PyExc),
       fs.contains op.source = true → op.source ≠ op.target →
       att fs op.source op.target = Except.error e →
       execStep att fs op =
         ⟨fs, { op with status := "failed", error := some (formatErr e op.source) },
          0, 1, 0, [formatErr e op.source]⟩) :=
  ⟨fun att fs ops => execList_length att ops fs,
   fun att fs pre post => execList_append_ops att pre fs post,
   fun att fs ops op' h => execList_final att ops fs op' h,
   execStep_notFound, execStep_skip, execStep_err⟩

/-- Claim C8 witness: the three step classifications evaluated concretely — a
missing source on an empty filesystem, a source equal to its target, and a
rename call that raises a permission error. -/
theorem execute_renames_classification_witness :
    execStep posixRename [] opMissing =
      ⟨[],
       { opMissing with status := "failed",
                        error := some ("Source file not found: " ++ opMissing.source.name) },
       0, 1, 0, ["Source file not found: " ++ opMissing.source.name]⟩ ∧
    execStep posixRename [⟨"d", "z"⟩] opSame =
      ⟨[⟨"d", "z"⟩], { opSame with status := "skipped" }, 0, 0, 1, []⟩ ∧
    execStep permDenied [⟨"d", "x"⟩] opMissing =
      ⟨[⟨"d", "x"⟩],
       { opMissing with status := "failed",
                        error := some (formatErr (PyExc.perm "no") opMissing.source) },
       0, 1, 0, [formatErr (PyExc.perm "no") opMissing.source]⟩ :=
  ⟨execute_renames_classification.2.2.2.1 posixRename [] opMissing (by decide),
   execute_renames_classification.2.2.2.2.1 posixRename [⟨"d", "z"⟩] opSame
     (by decide) rfl,
   execute_renames_classification.2.2.2.2.2 permDenied [⟨"d", "x"⟩] opMissing
     (PyExc.perm "no") (by decide) (by decide) rfl⟩

theorem execList_counts (att : RenameAtt) :
    ∀ (ops : List RenameOperation) (fs : List FsPath),
      (execList att fs ops).succ =
        ((execList att fs ops).ops.filter (fun o => o.status == "success")).length ∧
      (execList att fs ops).fail =
        ((execList att fs ops).ops.filter (fun o => o.status == "failed")).length ∧
      (execList att fs ops).skip =
        ((execList att fs ops).ops.filter (fun o => o.status == "skipped")).length ∧
      (execList att fs ops).errs =
        ((execList att fs ops).ops.filter (fun o => o.status == "failed")).filterMap
          (fun o => o.error) ∧
      (execList att fs ops).errs.length = (execList att fs ops).fail ∧
      (execList att fs ops).succ + (execList att fs ops).fail + (execList att fs ops).skip
        = ops.length := by
  intro ops
  induction ops with
  | nil => intro fs; exact ⟨rfl, rfl, rfl, rfl, rfl, rfl⟩
  | cons op rest ih =>
    intro fs
    obtain ⟨ih1, ih2, ih3, ih4, ih5, ih6⟩ := ih (execStep att fs op).fs
    rw [execList_cons]
    rcases execStep_cases att fs op with ⟨msg, he⟩ | he | ⟨fs2, he⟩
    · have hop : (execStep att fs op).op = { op with status := "failed", error := some msg } := by rw [he]
      have hsucc : (execStep att fs op).succ = 0 := by rw [he]
      have hfail : (execStep att fs op).fail = 1 := by rw [he]
      have hskip : (execStep att fs op).skip = 0 := by rw [he]
      have herrs : (execStep att fs op).errs = [msg] := by rw [he]
      rw [hop, hsucc, hfail, hskip, herrs]
      refine ⟨?_, ?_, ?_, ?_, ?_, ?_⟩
      · simp [List.filter_cons, ih1] <;> omega
      · simp [List.filter_cons, ih2] <;> omega
      · simp [List.filter_cons, ih3] <;> omega
      · simp [List.filter_cons, List.filterMap_cons, ih4]
      · simp [List.filter_cons, ih5] <;> omega
      · simp [List.length_cons] <;> omega
    · have hop : (execStep att fs op).op = { op with status := "skipped" } := by rw [he]
      have hsucc : (execStep att fs op).succ = 0 := by rw [he]
      have hfail : (execStep att fs op).fail = 0 := by rw [he]
      have hskip : (execStep att fs op).skip = 1 := by rw [he]
      have herrs : (execStep att fs op).errs = [] := by rw [he]
      rw [hop, hsucc, hfail, hskip, herrs]
      refine ⟨?_, ?_, ?_, ?_, ?_, ?_⟩
      · simp [List.filter_cons, ih1] <;> omega
      · simp [List.filter_cons, ih2] <;> omega
      · simp [List.filter_cons, ih3] <;> omega
      · simp [List.filter_cons, List.filterMap_cons, ih4]
      · simp [List.filter_cons, ih5] <;> omega
      · simp [List.length_cons] <;> omega
    · have hop : (execStep att fs op).op = { op with status := "success" } := by rw [he]
      have hsucc : (execStep att fs op).succ = 1 := by rw [he]
      have hfail : (execStep att fs op).fail = 0 := by rw [he]
      have hskip : (execStep att fs op).skip = 0 := by rw [he]
      have herrs : (execStep att fs op).errs = [] := by rw [he]
      rw [hop, hsucc, hfail, hskip, herrs]
      refine ⟨?_, ?_, ?_, ?_, ?_, ?_⟩
      · simp [List.filter_cons, ih1] <;> omega
      · simp [List.filter_cons, ih2] <;> omega
      · simp [List.filter_cons, ih3] <;> omega
      · simp [List.filter_cons, List.filterMap_cons, ih4]
      · simp [List.filter_cons, ih5] <;> omega
      · simp [List.length_cons] <;> omega

/-- Claim C9: the result satisfies `total_files = successful + failed +
skipped` with `total_files` the plan's length; each count equals the number of
operations that ended in the corresponding status; and the errors list is
exactly the in-order list of the failed operations' error strings, one per
failed operation. -/
theorem execute_renames_totals :
    ∀ (att : RenameAtt) (fs : List FsPath) (ops : List RenameOperation),
      (execute_renames att fs ops).total_files = ops.length ∧
      (execute_renames att fs ops).total_files =
        (execute_renames att fs ops).successful + (execute_renames att fs ops).failed +
          (execute_renames att fs ops).skipped ∧
      (execute_renames att fs ops).successful =
        ((execList att fs ops).ops.filter (fun o => o.status == "success")).length ∧
      (execute_renames att fs ops).failed =
        ((execList att fs ops).ops.filter (fun o => o.status == "failed")).length ∧
      (execute_renames att fs ops).skipped =
        ((execList att fs ops).ops.filter (fun o => o.status == "skipped")).length ∧
      (execute_renames att fs ops).errors =
        ((execList att fs ops).ops.filter (fun o => o.status == "failed")).filterMap
          (fun o => o.error) ∧
      (execute_renames att fs ops).errors.length = (execute_renames att fs ops).failed := by
  intro att fs ops
  obtain ⟨h1, h2, h3, h4, h5, h6⟩ := execList_counts att ops fs
  exact ⟨rfl, h6.symm, h1, h2, h3, h4, h5⟩
